import Mathlib

/-!
# CenQuery dimension-reconciliation pipeline: a shallow embedding

This file embeds the label-canonicalization, dimension-registry and
upload logic of the CenQuery pre-processing scripts
(`clean_healthcare.py`, `upload_healthcare.py`, `clean_population.py`,
`upload_population_normalized.py`, `clean_religion.py`,
`upload_religion.py`, `clean_occupation.py`, `clean_pca.py`,
`upload_pca.py`) and proves the specification claims about them.

Python strings are modelled as `List Char` (ASCII data, matching the
census extracts); Python `str.lower` / `str.upper` / `str.title` are
modelled by an explicit ASCII case table, which is exactly the range on
which they act in the source data.
-/

/-- Python strings, modelled as lists of characters. -/
abbrev PyStr := List Char

/-- Python whitespace characters, as recognised by `str.strip` and `\s`. -/
def isPySpace (c : Char) : Bool :=
  c == ' ' || c == '\t' || c == '\n' || c == '\r' || c.toNat == 11 || c.toNat == 12

/-- ASCII uppercase letter. -/
def isUpperAlpha (c : Char) : Bool := 65 ≤ c.toNat && c.toNat ≤ 90

/-- ASCII lowercase letter. -/
def isLowerAlpha (c : Char) : Bool := 97 ≤ c.toNat && c.toNat ≤ 122

/-- Python "cased" character (ASCII model): a letter. -/
def isCasedChar (c : Char) : Bool := isUpperAlpha c || isLowerAlpha c

/-- ASCII digit. -/
def isDigitChar (c : Char) : Bool := 48 ≤ c.toNat && c.toNat ≤ 57

/-- Characters kept by the column-name cleaner's `[^a-z0-9_]` removal. -/
def isIdentChar (c : Char) : Bool := isLowerAlpha c || isDigitChar c || c == '_'

/-- The ASCII case table: each uppercase letter paired with its lowercase form. -/
def caseTable : List (Char × Char) :=
  [('A', 'a'), ('B', 'b'), ('C', 'c'), ('D', 'd'), ('E', 'e'), ('F', 'f'),
   ('G', 'g'), ('H', 'h'), ('I', 'i'), ('J', 'j'), ('K', 'k'), ('L', 'l'),
   ('M', 'm'), ('N', 'n'), ('O', 'o'), ('P', 'p'), ('Q', 'q'), ('R', 'r'),
   ('S', 's'), ('T', 't'), ('U', 'u'), ('V', 'v'), ('W', 'w'), ('X', 'x'),
   ('Y', 'y'), ('Z', 'z')]

/-- The reversed case table: lowercase letter to its uppercase form. -/
def upperTable : List (Char × Char) := caseTable.map (fun p => (p.2, p.1))

/-- Python `str.lower` on one character (ASCII model). -/
def pyLowerChar (c : Char) : Char := (caseTable.lookup c).getD c

/-- Python `str.upper` on one character (ASCII model). -/
def pyUpperChar (c : Char) : Char := (upperTable.lookup c).getD c

/-- Python `str.lower` (ASCII model). -/
def pyLower (s : PyStr) : PyStr := s.map pyLowerChar

/-- Left strip of Python whitespace (`str.strip`, left half). -/
def pyLStrip (s : PyStr) : PyStr := s.dropWhile isPySpace

/-- Right strip of Python whitespace (`str.strip`, right half). -/
def pyRStrip (s : PyStr) : PyStr := (s.reverse.dropWhile isPySpace).reverse

/-- Python `str.strip`: removes leading and trailing whitespace. -/
def pyStrip (s : PyStr) : PyStr := pyRStrip (pyLStrip s)

/-- `re.sub(r'\s+', '_', s)`: each maximal whitespace run becomes one `_`.
The Boolean argument records whether the previous character was whitespace. -/
def collapseWsAux : Bool → PyStr → PyStr
  | _, [] => []
  | inRun, c :: cs =>
    if isPySpace c then
      (if inRun then collapseWsAux true cs else '_' :: collapseWsAux true cs)
    else c :: collapseWsAux false cs

/-- `re.sub(r'\s+', '_', s)` starting outside a whitespace run. -/
def collapseWs (s : PyStr) : PyStr := collapseWsAux false s

/-- Does `s` start with `pat`? (model of Python `str.startswith`). -/
def startsWithStr : PyStr → PyStr → Bool
  | _, [] => true
  | [], _ :: _ => false
  | c :: cs, d :: ds => c == d && startsWithStr cs ds

/-- Python `needle in hay` substring test. -/
def containsStr : PyStr → PyStr → Bool
  | hay, needle =>
    match hay with
    | [] => needle.isEmpty
    | c :: cs => startsWithStr (c :: cs) needle || containsStr cs needle

/-- `s.replace('&', 'and')`. -/
def replaceAmp (s : PyStr) : PyStr :=
  s.foldr (fun c acc => if c == '&' then 'a' :: 'n' :: 'd' :: acc else c :: acc) []

/-- Python `str.title` (ASCII model): the Boolean argument is whether the
previous character was cased; a cased character after an uncased one is
uppercased, any other cased character is lowercased. -/
def pyTitleAux : Bool → PyStr → PyStr
  | _, [] => []
  | prev, c :: cs =>
    if isCasedChar c then
      (if prev then pyLowerChar c else pyUpperChar c) :: pyTitleAux true cs
    else c :: pyTitleAux false cs

/-- Python `str.title` (ASCII model). -/
def pyTitle (s : PyStr) : PyStr := pyTitleAux false s

/-- `re.sub(r'^State - ', '', name, flags=re.IGNORECASE)`: drop a leading
case-insensitive `"State - "` marker, once. -/
def stripStateMarker (s : PyStr) : PyStr :=
  if pyLower (s.take 8) = "state - ".data then s.drop 8 else s

/-- Reversed-tail parser for `\s\(\d+\)$`: given the reverse of the input
minus the `')'`, expects one or more digits, then `'('`, then a whitespace
character; returns the reverse of what precedes the match. -/
def parseDigitsRev (rest : PyStr) : Option PyStr :=
  match rest.takeWhile isDigitChar, rest.dropWhile isDigitChar with
  | _ :: _, '(' :: w :: rest3 => if isPySpace w then some rest3 else none
  | _, _ => none

/-- Reversed-string matcher for `\s\(\d+\)$`: a match must end (begin, in
reverse) with `')'`. -/
def parseParenRev : PyStr → Option PyStr
  | ')' :: rest => parseDigitsRev rest
  | _ => none

/-- `re.sub(r'\s\(\d+\)$', '', name)`: drop a trailing parenthesized numeric
code together with the single whitespace character before it. -/
def stripParenCode (s : PyStr) : PyStr :=
  match parseParenRev s.reverse with
  | some rest3 => rest3.reverse
  | none => s

/-- The key-side stages of `clean_healthcare.clean_state_name`: strip, drop
the `"State - "` marker, drop a trailing `" (NN)"` code, lowercase,
replace `&` by `and`. The fixed-correction tests run on this string. -/
def regionKeyStage (s : PyStr) : PyStr :=
  replaceAmp (pyLower (stripParenCode (stripStateMarker (pyStrip s))))

/-- `clean_healthcare.clean_state_name` on string input: the staged cleanup
above, then either a fixed typo/merge correction or title-casing. -/
def clean_state_name (s : PyStr) : PyStr :=
  let s5 := regionKeyStage s
  if containsStr s5 "maharastra".data then "maharashtra".data
  else if containsStr s5 "dadra".data && containsStr s5 "daman".data then
    "dadra and nagar haveli and daman and diu".data
  else pyTitle s5

/-- A Python value arriving at `clean_column_name`: the scripts pass column
headers, which may be `None`, a string, or a number. -/
inductive CVal where
  | vNone : CVal
  | vStr : PyStr → CVal
  | vInt : Nat → CVal
deriving DecidableEq

/-- Python `str(...)` of a `CVal`. -/
def pyStrOf : CVal → PyStr
  | .vNone => "None".data
  | .vStr s => s
  | .vInt n => (Nat.repr n).data

/-- Python truthiness test `not name` on a `CVal`. -/
def isFalsy : CVal → Bool
  | .vNone => true
  | .vStr s => s.isEmpty
  | .vInt n => n == 0

/-- `clean_population.clean_column_name` (identical in `clean_religion.py`):
falsy input gives `"col"`; otherwise lowercase, strip, collapse whitespace
runs to `_`, remove characters outside `[a-z0-9_]`, truncate to 60. -/
def clean_column_name (v : CVal) : PyStr :=
  if isFalsy v then "col".data
  else ((collapseWs (pyStrip (pyLower (pyStrOf v)))).filter isIdentChar).take 60

/-! ## Dimension registry (healthcare regions engine) -/

/-- One persisted dimension row: surrogate id and display label
(`regions.csv` columns `state`, `area_name`; `tru.csv` columns `id`, `name`). -/
structure Row where
  id : Nat
  name : PyStr
deriving DecidableEq

/-- Registry state: the next free surrogate id and the canonical-key → id
map (`next_id` and `name_to_id` in `clean_healthcare.process_data`). -/
structure RegistryState where
  next_id : Nat
  map : List (PyStr × Nat)
deriving DecidableEq

/-- Python `dict` insertion: overwrite in place if the key exists, else
append (insertion order preserved). -/
def dictInsert (m : List (PyStr × Nat)) (k : PyStr) (v : Nat) : List (PyStr × Nat) :=
  if (m.lookup k).isSome then m.map (fun p => if p.1 = k then (k, v) else p)
  else m ++ [(k, v)]

/-- `dict(zip(regions_df['norm_name'], regions_df['state']))` where
`norm_name = clean_state_name(str(area_name)).lower()`. -/
def buildMap (rows : List Row) : List (PyStr × Nat) :=
  rows.foldl (fun m r => dictInsert m (pyLower (clean_state_name r.name)) r.id) []

/-- `regions_df['state'].max()` (ids are positive in the data). -/
def maxIds (rows : List Row) : Nat := rows.foldl (fun a r => max a r.id) 0

/-- Registry load (`clean_healthcare.process_data`, region setup): `none`
means the master file does not exist (fresh registry, `next_id = 1`);
otherwise the map is built from the persisted rows and
`next_id = max(ids) + 1`. -/
def load_regions : Option (List Row) → RegistryState
  | none => ⟨1, []⟩
  | some rows => ⟨maxIds rows + 1, buildMap rows⟩

/-- One iteration of the new-region loop: given a cleaned display label,
if its canonical key (`display.lower()`) is in the map the state is kept;
otherwise the key is mapped to `next_id`, the row `(next_id, display)` is
recorded, and `next_id` is incremented. -/
def regStep (acc : RegistryState × List Row) (display : PyStr) : RegistryState × List Row :=
  if ((acc.1.map.lookup (pyLower display)).isSome) then acc
  else (⟨acc.1.next_id + 1, acc.1.map ++ [(pyLower display, acc.1.next_id)]⟩,
        acc.2 ++ [⟨acc.1.next_id, display⟩])

/-- `pandas.Series.unique`: first occurrences, in input order. The `seen`
accumulator holds the values already emitted. -/
def uniqueAux (seen : List PyStr) : List PyStr → List PyStr
  | [] => []
  | x :: xs => if x ∈ seen then uniqueAux seen xs else x :: uniqueAux (x :: seen) xs

/-- The reconcile loop of `clean_healthcare.process_data`: clean every
incoming label, take the unique cleaned values in first-occurrence order,
and run the new-region loop over them. Returns the updated state and the
`new_regions` delta. -/
def codeReconcile (st : RegistryState) (labels : List PyStr) : RegistryState × List Row :=
  (uniqueAux [] (labels.map clean_state_name)).foldl regStep (st, [])

/-- Modelled from the spec wording of `reconcile` (§4.2): scan the incoming
labels themselves in input order, canonicalize each, assign `next_id` to
every canonical key not already in the map, and record the delta row; a
present key resolves to the existing id and adds nothing. Used only to
compare with `codeReconcile`, which is the code's dedup-then-loop form. -/
def specReconcile (st : RegistryState) (labels : List PyStr) : RegistryState × List Row :=
  labels.foldl (fun acc lab => regStep acc (clean_state_name lab)) (st, [])

/-- Persisting the registry file: `regions.csv` is rewritten as the old
rows followed by the delta, and only when the delta is non-empty
(`if new_regions: ... to_csv`). -/
def persistRegions (rows delta : List Row) : List Row :=
  if delta.isEmpty then rows else rows ++ delta

/-- `df['state'] = df['clean_state'].str.lower().map(name_to_id)`: map each
fact row's label to its surrogate id through the registry map; a missing
key yields `none` (pandas `NaN`). -/
def mapRegionIds (m : List (PyStr × Nat)) (labels : List PyStr) : List (Option Nat) :=
  labels.map (fun l => m.lookup (pyLower (clean_state_name l)))

/-! ## Upload scripts: dimension-table transitions at the destination -/

/-- `upload_healthcare.update_regions`: `none` means the destination table
does not exist, so it is created from the CSV; otherwise only CSV rows
whose id is not already present are appended. -/
def update_regions (db : Option (List Row)) (csv : List Row) : List Row :=
  match db with
  | none => csv
  | some rows =>
    rows ++ csv.filter (fun r => !((rows.map Row.id).contains r.id))

/-- `upload_healthcare.upload_tru`: same append-missing-ids protocol for
the `tru` lookup table. -/
def upload_tru_hc (db : Option (List Row)) (csv : List Row) : List Row :=
  match db with
  | none => csv
  | some rows =>
    rows ++ csv.filter (fun r => !((rows.map Row.id).contains r.id))

/-- `upload_population_normalized.upload_regions`: `to_sql(if_exists='replace')`
— the destination table is replaced wholesale by the CSV, whatever it held. -/
def upload_regions_pop (_db : Option (List Row)) (csv : List Row) : List Row := csv

/-- `upload_religion.upload_lookups`, religions half: also a wholesale
`if_exists='replace'`. -/
def upload_religions_rel (_db : Option (List Row)) (csv : List Row) : List Row := csv

/-- `upload_pca.upload_tru`: also a wholesale `if_exists='replace'`. -/
def upload_tru_pca (_db : Option (List Row)) (csv : List Row) : List Row := csv

/-! ## Religion fact path -/

/-- A religion fact row before id substitution: its TRU label and its
numeric measures (one representative measure suffices for the model). -/
structure RelRow where
  tru : PyStr
  measure : Int
deriving DecidableEq

/-- The TRU registry of the scenario: `tru.csv` as created by the PCA /
occupation step from a Total/Rural/Urban file. -/
def religionTruMap : List (PyStr × Nat) :=
  [("Total".data, 1), ("Rural".data, 2), ("Urban".data, 3)]

/-- `df['tru_id'] = df['tru'].map(tru_map)` in
`clean_religion.process_religion_data`: an absent label becomes `none`
(pandas `NaN`); no row is dropped and nothing is reported. -/
def map_tru (truMap : List (PyStr × Nat)) (rows : List RelRow) : List (Option Nat × Int) :=
  rows.map (fun r => (truMap.lookup r.tru, r.measure))

/-- `pd.read_csv(..., chunksize=5000)` chunking in
`upload_religion.upload_stats`. -/
def chunked (l : List (Option Nat × Int)) : List (List (Option Nat × Int)) :=
  if h : l = [] then [] else l.take 5000 :: chunked (l.drop 5000)
termination_by l.length
decreasing_by
  simp only [List.length_drop]
  have : l.length ≠ 0 := fun hh => h (List.eq_nil_of_length_eq_zero hh)
  omega

/-- `upload_religion.upload_stats`: every chunk is uploaded (first chunk
replaces, the rest append), before any foreign-key constraint is added;
the uploaded table is the concatenation of the chunks. -/
def uploadReligionStats (stats : List (Option Nat × Int)) : List (Option Nat × Int) :=
  (chunked stats).flatten

/-! ## Occupation / PCA TRU extraction -/

/-- TRU lookup creation in `clean_occupation.process_occupation_data` and
`clean_pca.process_pca_data`: `unique()` of the raw TRU labels, numbered
from 1 in first-occurrence order. -/
def truExtract (labels : List PyStr) : List Row :=
  (uniqueAux [] labels).enum.map (fun p => ⟨p.1 + 1, p.2⟩)

/-- `tru_map = dict(zip(tru_df['name'], tru_df['id']))`. -/
def truExtractMap (labels : List PyStr) : List (PyStr × Nat) :=
  (truExtract labels).map (fun r => (r.name, r.id))

/-! ## Numeric measure coercion -/

/-- A cell of a numeric measure column: missing (`NaN`), an integer value,
or raw text. -/
inductive PCell where
  | missing : PCell
  | intVal : Int → PCell
  | text : PyStr → PCell
deriving DecidableEq

/-- Decimal value of a digit string. -/
def digitsVal (l : PyStr) : Nat := l.foldl (fun a c => a * 10 + (c.toNat - 48)) 0

/-- Python `int(...)` literal parse of a text cell, as performed by
`astype(int)` on a text column: optional sign followed by at least one
digit, anything else raises. -/
def parseIntText (s : PyStr) : Option Int :=
  match s with
  | [] => none
  | c :: rest =>
    if c == '-' then
      if rest ≠ [] ∧ rest.all isDigitChar then some (-(digitsVal rest : Int)) else none
    else if c == '+' then
      if rest ≠ [] ∧ rest.all isDigitChar then some (digitsVal rest) else none
    else if (c :: rest).all isDigitChar then some (digitsVal (c :: rest)) else none

/-- Exponent marker of a decimal literal. -/
def isExpChar (c : Char) : Bool := c == 'e' || c == 'E'

/-- Mantissa of a decimal literal: `digits`, `digits.`, `digits.digits`
or `.digits`. Returns the integer formed by all mantissa digits together
with the number of fractional digits (so the value is `m / 10 ^ scale`). -/
def parseMantissa (l : PyStr) : Option (Nat × Nat) :=
  match l.dropWhile isDigitChar with
  | [] =>
    if l.takeWhile isDigitChar ≠ [] then some (digitsVal (l.takeWhile isDigitChar), 0) else none
  | '.' :: frac =>
    if (l.takeWhile isDigitChar ≠ [] ∨ frac ≠ []) ∧ frac.all isDigitChar = true then
      some (digitsVal (l.takeWhile isDigitChar ++ frac), frac.length)
    else none
  | _ => none

/-- Unsigned decimal literal (mantissa with optional exponent) accepted by
`pd.to_numeric`, returned already truncated toward zero as `astype(int)`
does. Exotic spellings Python's float grammar also admits (underscore
separators, `inf`/`nan` words) do not occur in this data and are treated
as unparsable. -/
def parseUnsignedDec (l : PyStr) : Option Nat :=
  match parseMantissa (l.takeWhile (fun c => !isExpChar c)) with
  | none => none
  | some (m, scale) =>
    match l.dropWhile (fun c => !isExpChar c) with
    | [] => some (m / 10 ^ scale)
    | _ :: expPart =>
      match parseIntText expPart with
      | none => none
      | some e =>
        if 0 ≤ e - (scale : Int) then some (m * 10 ^ (e - (scale : Int)).toNat)
        else some (m / 10 ^ (-(e - (scale : Int))).toNat)

/-- `pd.to_numeric(errors='coerce')` on a text cell followed by
`astype(int)`: parse an optionally signed decimal literal and truncate
toward zero (so `"4.2"` gives 4 and `"-4.2"` gives -4); anything else is
unparsable (`NaN`). -/
def parseDecimalTrunc (s : PyStr) : Option Int :=
  match s with
  | [] => none
  | c :: rest =>
    if c == '-' then (parseUnsignedDec rest).map (fun n : Nat => -(n : Int))
    else if c == '+' then (parseUnsignedDec rest).map (fun n : Nat => (n : Int))
    else (parseUnsignedDec (c :: rest)).map (fun n : Nat => (n : Int))

/-- Occupation coercion (`clean_occupation.process_occupation_data`):
`pd.to_numeric(errors='coerce').fillna(0).astype(int)` — missing and
unparsable cells both become 0, decimal text is truncated toward zero. -/
def occ_coerce : PCell → Int
  | .missing => 0
  | .intVal n => n
  | .text s => (parseDecimalTrunc (pyStrip s)).getD 0

/-- Population coercion (`clean_population.process_population_data`):
`fillna(0).astype(int)` — missing becomes 0, numbers pass through, but an
unparsable text cell makes `astype(int)` raise (modelled as `none`). -/
def pop_coerce : PCell → Option Int
  | .missing => some 0
  | .intVal n => some n
  | .text s => parseIntText (pyStrip s)


/-! ## Helper lemmas: association-list lookup -/

theorem lookup_mem {α β : Type} [BEq α] [LawfulBEq α] {l : List (α × β)} {k : α} {v : β}
    (h : l.lookup k = some v) : (k, v) ∈ l := by
  induction l with
  | nil => simp at h
  | cons p t ih =>
    obtain ⟨a, b⟩ := p
    rw [List.lookup_cons] at h
    split at h
    · rename_i heq
      injection h with h1
      subst h1
      have hk : k = a := eq_of_beq heq
      subst hk
      exact List.mem_cons_self _ _
    · exact List.mem_cons_of_mem _ (ih h)

theorem lookup_append_some {α β : Type} [BEq α] {l l' : List (α × β)} {k : α} {v : β}
    (h : l.lookup k = some v) : (l ++ l').lookup k = some v := by
  induction l with
  | nil => simp at h
  | cons p t ih =>
    obtain ⟨a, b⟩ := p
    rw [List.lookup_cons] at h
    rw [List.cons_append, List.lookup_cons]
    cases hk : k == a <;> rw [hk] at h <;> simp only []
    · exact ih h
    · exact h

theorem lookup_append_none {α β : Type} [BEq α] {l : List (α × β)} {k : α}
    (h : l.lookup k = none) (l' : List (α × β)) : (l ++ l').lookup k = l'.lookup k := by
  induction l with
  | nil => simp
  | cons p t ih =>
    obtain ⟨a, b⟩ := p
    rw [List.lookup_cons] at h
    rw [List.cons_append, List.lookup_cons]
    cases hk : k == a <;> rw [hk] at h <;> simp only []
    · exact ih h
    · exact absurd h (by simp)

/-! ## Helper lemmas: the ASCII case table -/

theorem caseTable_entries : ∀ p ∈ caseTable, isUpperAlpha p.1 = true ∧ isLowerAlpha p.2 = true := by
  decide

theorem caseTable_snd_no_case_key : ∀ p ∈ caseTable, caseTable.lookup p.2 = none := by
  decide

theorem caseTable_fst_no_upper_key : ∀ p ∈ caseTable, upperTable.lookup p.1 = none := by
  decide

theorem caseTable_no_amp : ∀ p ∈ caseTable, p.1 ≠ '&' ∧ p.2 ≠ '&' := by
  decide

theorem upperTable_mem {c v : Char} (h : (c, v) ∈ upperTable) : (v, c) ∈ caseTable := by
  unfold upperTable at h
  rw [List.mem_map] at h
  obtain ⟨p, hp, he⟩ := h
  have h1 : p.2 = c := congrArg Prod.fst he
  have h2 : p.1 = v := congrArg Prod.snd he
  rw [← h1, ← h2]
  exact hp

theorem pyLowerChar_idem (c : Char) : pyLowerChar (pyLowerChar c) = pyLowerChar c := by
  unfold pyLowerChar
  cases h : caseTable.lookup c with
  | none => simp [h]
  | some v =>
    have hv : caseTable.lookup v = none := caseTable_snd_no_case_key (c, v) (lookup_mem h)
    simp [h, hv]

theorem pyUpperChar_idem (c : Char) : pyUpperChar (pyUpperChar c) = pyUpperChar c := by
  unfold pyUpperChar
  cases h : upperTable.lookup c with
  | none => simp [h]
  | some v =>
    have hm : (v, c) ∈ caseTable := upperTable_mem (lookup_mem h)
    have hv : upperTable.lookup v = none := caseTable_fst_no_upper_key (v, c) hm
    simp [h, hv]

theorem isCased_pyLowerChar (c : Char) : isCasedChar (pyLowerChar c) = isCasedChar c := by
  unfold pyLowerChar
  cases h : caseTable.lookup c with
  | none => simp
  | some v =>
    have hm := lookup_mem h
    have hc := caseTable_entries (c, v) hm
    simp only [Option.getD_some]
    simp [isCasedChar, hc.1, hc.2]

theorem isCased_pyUpperChar (c : Char) : isCasedChar (pyUpperChar c) = isCasedChar c := by
  unfold pyUpperChar
  cases h : upperTable.lookup c with
  | none => simp
  | some v =>
    have hm : (v, c) ∈ caseTable := upperTable_mem (lookup_mem h)
    have hc := caseTable_entries (v, c) hm
    simp only [Option.getD_some]
    simp [isCasedChar, hc.1, hc.2]

theorem pyLowerChar_amp {c : Char} (h : pyLowerChar c = '&') : c = '&' := by
  unfold pyLowerChar at h
  cases hl : caseTable.lookup c with
  | none => simpa [hl] using h
  | some v =>
    rw [hl] at h
    simp only [Option.getD_some] at h
    exact absurd h (caseTable_no_amp (c, v) (lookup_mem hl)).2

theorem pyUpperChar_amp {c : Char} (h : pyUpperChar c = '&') : c = '&' := by
  unfold pyUpperChar at h
  cases hl : upperTable.lookup c with
  | none => simpa [hl] using h
  | some v =>
    rw [hl] at h
    simp only [Option.getD_some] at h
    exact absurd h (caseTable_no_amp (v, c) (upperTable_mem (lookup_mem hl))).1

/-! ## Helper lemmas: title-casing and ampersand replacement -/

theorem pyTitleAux_cons (b : Bool) (c : Char) (cs : PyStr) :
    pyTitleAux b (c :: cs) =
      if isCasedChar c then (if b then pyLowerChar c else pyUpperChar c) :: pyTitleAux true cs
      else c :: pyTitleAux false cs := rfl

theorem pyTitleAux_idem (l : PyStr) : ∀ b, pyTitleAux b (pyTitleAux b l) = pyTitleAux b l := by
  induction l with
  | nil => intro b; rfl
  | cons c cs ih =>
    intro b
    by_cases hc : isCasedChar c = true
    · cases b <;>
        simp [pyTitleAux_cons, hc, isCased_pyUpperChar, isCased_pyLowerChar,
          pyUpperChar_idem, pyLowerChar_idem, ih true]
    · simp [pyTitleAux_cons, hc, ih false]

theorem amp_mem_pyTitleAux {l : PyStr} : ∀ b, '&' ∈ pyTitleAux b l → '&' ∈ l := by
  induction l with
  | nil => intro b h; simpa [pyTitleAux] using h
  | cons c cs ih =>
    intro b h
    by_cases hc : isCasedChar c = true
    · rw [pyTitleAux_cons, if_pos hc] at h
      rcases List.mem_cons.mp h with h1 | h1
      · cases b with
        | false => exact (pyUpperChar_amp h1.symm) ▸ List.mem_cons_self _ _
        | true => exact (pyLowerChar_amp h1.symm) ▸ List.mem_cons_self _ _
      · exact List.mem_cons_of_mem _ (ih true h1)
    · rw [pyTitleAux_cons, if_neg hc] at h
      rcases List.mem_cons.mp h with h1 | h1
      · exact h1 ▸ List.mem_cons_self _ _
      · exact List.mem_cons_of_mem _ (ih false h1)

theorem replaceAmp_cons (c : Char) (cs : PyStr) :
    replaceAmp (c :: cs) =
      if c == '&' then 'a' :: 'n' :: 'd' :: replaceAmp cs else c :: replaceAmp cs := rfl

theorem amp_not_mem_replaceAmp (s : PyStr) : '&' ∉ replaceAmp s := by
  induction s with
  | nil => simp [replaceAmp]
  | cons c cs ih =>
    rw [replaceAmp_cons]
    by_cases hc : (c == '&') = true
    · rw [if_pos hc]
      intro h
      rcases List.mem_cons.mp h with h1 | h1
      · exact absurd h1 (by decide)
      rcases List.mem_cons.mp h1 with h2 | h2
      · exact absurd h2 (by decide)
      rcases List.mem_cons.mp h2 with h3 | h3
      · exact absurd h3 (by decide)
      · exact ih h3
    · rw [if_neg hc]
      intro h
      rcases List.mem_cons.mp h with h1 | h1
      · subst h1
        exact hc (by decide)
      · exact ih h1

/-! ## Helper lemmas: stripping whitespace -/

theorem dropWhile_length_le {α : Type} (p : α → Bool) (l : List α) :
    (l.dropWhile p).length ≤ l.length := by
  induction l with
  | nil => simp
  | cons c t ih =>
    rw [List.dropWhile_cons]
    by_cases hp : p c = true
    · rw [if_pos hp]
      exact le_trans ih (Nat.le_succ _)
    · rw [if_neg hp]

theorem dropWhile_eq_self_of_length {α : Type} {p : α → Bool} {l : List α}
    (h : (l.dropWhile p).length = l.length) : l.dropWhile p = l := by
  cases l with
  | nil => rfl
  | cons c t =>
    rw [List.dropWhile_cons] at h ⊢
    by_cases hp : p c = true
    · rw [if_pos hp] at h
      have hle := dropWhile_length_le p t
      rw [List.length_cons] at h
      omega
    · rw [if_neg hp]

theorem dropWhile_cons_head {α : Type} {p : α → Bool} {c : α} {t : List α}
    (h : List.dropWhile p (c :: t) = c :: t) : p c = false := by
  by_cases hp : p c = true
  · rw [List.dropWhile_cons, if_pos hp] at h
    have hlen := congrArg List.length h
    rw [List.length_cons] at hlen
    have hle := dropWhile_length_le p t
    omega
  · simpa using hp

theorem pyStrip_self_left {s : PyStr} (h : pyStrip s = s) : pyLStrip s = s := by
  have hL := dropWhile_length_le isPySpace s
  have hR : (pyRStrip (pyLStrip s)).length ≤ (pyLStrip s).length := by
    unfold pyRStrip
    rw [List.length_reverse]
    calc ((pyLStrip s).reverse.dropWhile isPySpace).length
        ≤ (pyLStrip s).reverse.length := dropWhile_length_le _ _
      _ = (pyLStrip s).length := List.length_reverse _
  have hs : s.length ≤ (pyLStrip s).length := by
    have := congrArg List.length h
    unfold pyStrip at this
    omega
  exact dropWhile_eq_self_of_length (by unfold pyLStrip at hs; omega)

theorem pyStrip_self_right {s : PyStr} (h : pyStrip s = s) : pyRStrip s = s := by
  have hl := pyStrip_self_left h
  unfold pyStrip at h
  rw [hl] at h
  exact h

theorem pyStrip_marker_append {s : PyStr} (h0 : s ≠ []) (h1 : pyStrip s = s) :
    pyStrip ("State - ".data ++ s) = "State - ".data ++ s := by
  have hr : pyRStrip s = s := pyStrip_self_right h1
  have hLeft : pyLStrip ("State - ".data ++ s) = "State - ".data ++ s := by
    show List.dropWhile isPySpace ('S' :: ("tate - ".data ++ s)) = 'S' :: ("tate - ".data ++ s)
    rw [List.dropWhile_cons, if_neg (by decide)]
  have hrev : List.dropWhile isPySpace s.reverse = s.reverse := by
    have h2 := congrArg List.reverse hr
    unfold pyRStrip at h2
    rw [List.reverse_reverse] at h2
    rw [h2]
  obtain ⟨c, rest, hc⟩ := List.exists_cons_of_ne_nil (show s.reverse ≠ [] by simpa using h0)
  have hpc : isPySpace c = false := by
    rw [hc] at hrev
    exact dropWhile_cons_head hrev
  unfold pyStrip
  rw [hLeft]
  unfold pyRStrip
  rw [List.reverse_append, hc]
  rw [show (c :: rest) ++ ("State - ".data).reverse = c :: (rest ++ ("State - ".data).reverse)
    from rfl]
  rw [List.dropWhile_cons, if_neg (by simp [hpc])]
  rw [show c :: (rest ++ ("State - ".data).reverse)
      = (c :: rest) ++ ("State - ".data).reverse from rfl, ← hc]
  rw [← List.reverse_append, List.reverse_reverse]

/-! ## Helper lemmas: the trailing code and leading marker of region names -/

theorem takeWhile_append_all {α : Type} {p : α → Bool} {l : List α}
    (h : ∀ c ∈ l, p c = true) {x : α} (hx : p x = false) (r : List α) :
    (l ++ x :: r).takeWhile p = l := by
  induction l with
  | nil => simp [List.takeWhile_cons, hx]
  | cons c t ih =>
    rw [List.cons_append, List.takeWhile_cons, if_pos (h c (List.mem_cons_self c t))]
    rw [ih (fun d hd => h d (List.mem_cons_of_mem c hd))]

theorem dropWhile_append_all {α : Type} {p : α → Bool} {l : List α}
    (h : ∀ c ∈ l, p c = true) {x : α} (hx : p x = false) (r : List α) :
    (l ++ x :: r).dropWhile p = x :: r := by
  induction l with
  | nil => simp [List.dropWhile_cons, hx]
  | cons c t ih =>
    rw [List.cons_append, List.dropWhile_cons, if_pos (h c (List.mem_cons_self c t))]
    exact ih (fun d hd => h d (List.mem_cons_of_mem c hd))

theorem stripParenCode_append (s ds : PyStr) (h0 : ds ≠ [])
    (h1 : ∀ c ∈ ds, isDigitChar c = true) :
    stripParenCode (s ++ ' ' :: '(' :: (ds ++ [')'])) = s := by
  have hrev : (s ++ ' ' :: '(' :: (ds ++ [')'])).reverse
      = ')' :: (ds.reverse ++ '(' :: ' ' :: s.reverse) := by
    simp
  have htake : (ds.reverse ++ '(' :: ' ' :: s.reverse).takeWhile isDigitChar = ds.reverse :=
    takeWhile_append_all (fun c hc => h1 c (List.mem_reverse.mp hc)) (by decide) _
  have hdrop : (ds.reverse ++ '(' :: ' ' :: s.reverse).dropWhile isDigitChar
      = '(' :: ' ' :: s.reverse :=
    dropWhile_append_all (fun c hc => h1 c (List.mem_reverse.mp hc)) (by decide) _
  obtain ⟨d, ds', hd⟩ := List.exists_cons_of_ne_nil (show ds.reverse ≠ [] by simpa using h0)
  have hp : parseParenRev (')' :: (ds.reverse ++ '(' :: ' ' :: s.reverse)) = some s.reverse := by
    show parseDigitsRev (ds.reverse ++ '(' :: ' ' :: s.reverse) = some s.reverse
    unfold parseDigitsRev
    rw [htake, hdrop, hd]
    rfl
  unfold stripParenCode
  rw [hrev, hp]
  exact List.reverse_reverse s

theorem clean_state_name_marker (s : PyStr) (h0 : s ≠ []) (h1 : pyStrip s = s)
    (h2 : pyLower (s.take 8) ≠ "state - ".data) :
    clean_state_name ("State - ".data ++ s) = clean_state_name s := by
  have htk : ("State - ".data ++ s).take 8 = "State - ".data := by
    rw [show (8 : Nat) = ("State - ".data).length from rfl]
    exact List.take_left _ _
  have hdr : ("State - ".data ++ s).drop 8 = s := by
    rw [show (8 : Nat) = ("State - ".data).length from rfl]
    exact List.drop_left _ _
  have key : regionKeyStage ("State - ".data ++ s) = regionKeyStage s := by
    unfold regionKeyStage
    rw [pyStrip_marker_append h0 h1]
    have hm : stripStateMarker ("State - ".data ++ s) = s := by
      unfold stripStateMarker
      rw [htk, if_pos (by decide), hdr]
    have hm2 : stripStateMarker s = s := by
      unfold stripStateMarker
      rw [if_neg h2]
    rw [hm, h1, hm2]
  unfold clean_state_name
  rw [key]

/-! ## Helper lemmas: the reconcile loop -/

theorem regStep_present {acc : RegistryState × List Row} {d : PyStr}
    (h : (acc.1.map.lookup (pyLower d)).isSome = true) : regStep acc d = acc := by
  unfold regStep
  rw [if_pos h]

theorem regStep_preserves {acc : RegistryState × List Row} {k : PyStr} {d : PyStr}
    (h : (acc.1.map.lookup k).isSome = true) :
    (((regStep acc d).1.map.lookup k).isSome = true) := by
  unfold regStep
  by_cases hd : (acc.1.map.lookup (pyLower d)).isSome = true
  · rw [if_pos hd]
    exact h
  · rw [if_neg hd]
    obtain ⟨v, hv⟩ := Option.isSome_iff_exists.mp h
    simp only []
    rw [lookup_append_some hv]
    rfl

theorem regStep_adds (acc : RegistryState × List Row) (d : PyStr) :
    ((regStep acc d).1.map.lookup (pyLower d)).isSome = true := by
  unfold regStep
  by_cases hd : (acc.1.map.lookup (pyLower d)).isSome = true
  · rw [if_pos hd]
    exact hd
  · rw [if_neg hd]
    simp only []
    have hn : acc.1.map.lookup (pyLower d) = none := by
      cases hx : acc.1.map.lookup (pyLower d) with
      | none => rfl
      | some v => rw [hx] at hd; exact absurd rfl hd
    rw [lookup_append_none hn]
    simp [List.lookup_cons]

theorem foldl_regStep_present {ds : List PyStr} :
    ∀ {acc : RegistryState × List Row},
      (∀ d ∈ ds, (acc.1.map.lookup (pyLower d)).isSome = true) →
      ds.foldl regStep acc = acc := by
  induction ds with
  | nil => intro acc _; rfl
  | cons d t ih =>
    intro acc h
    rw [List.foldl_cons, regStep_present (h d (List.mem_cons_self d t))]
    exact ih (fun e he => h e (List.mem_cons_of_mem d he))

theorem foldl_regStep_preserves {ds : List PyStr} :
    ∀ {acc : RegistryState × List Row} {k : PyStr},
      ((acc.1.map.lookup k).isSome = true) →
      (((ds.foldl regStep acc).1.map.lookup k).isSome = true) := by
  induction ds with
  | nil => intro acc k h; exact h
  | cons d t ih =>
    intro acc k h
    rw [List.foldl_cons]
    exact ih (regStep_preserves h)

theorem foldl_regStep_mem {ds : List PyStr} :
    ∀ {acc : RegistryState × List Row} {d : PyStr}, d ∈ ds →
      (((ds.foldl regStep acc).1.map.lookup (pyLower d)).isSome = true) := by
  induction ds with
  | nil => intro acc d h; simp at h
  | cons e t ih =>
    intro acc d h
    rw [List.foldl_cons]
    rcases List.mem_cons.mp h with h1 | h1
    · subst h1
      exact foldl_regStep_preserves (regStep_adds acc d)
    · exact ih h1

theorem uniqueAux_foldl_eq (xs : List PyStr) :
    ∀ (seen : List PyStr) (acc : RegistryState × List Row),
      (∀ d ∈ seen, (acc.1.map.lookup (pyLower d)).isSome = true) →
      (uniqueAux seen xs).foldl regStep acc = xs.foldl regStep acc := by
  induction xs with
  | nil => intro seen acc _; rfl
  | cons x t ih =>
    intro seen acc h
    unfold uniqueAux
    by_cases hx : x ∈ seen
    · rw [if_pos hx, List.foldl_cons, regStep_present (h x hx)]
      exact ih seen acc h
    · rw [if_neg hx, List.foldl_cons, List.foldl_cons]
      refine ih (x :: seen) (regStep acc x) ?_
      intro d hd
      rcases List.mem_cons.mp hd with h1 | h1
      · subst h1
        exact regStep_adds acc d
      · exact regStep_preserves (h d h1)

theorem codeReconcile_eq_spec (st : RegistryState) (labels : List PyStr) :
    codeReconcile st labels = specReconcile st labels := by
  unfold codeReconcile specReconcile
  rw [uniqueAux_foldl_eq _ [] (st, []) (by intro d hd; simp at hd)]
  rw [List.foldl_map]

theorem chunked_flatten_bounded :
    ∀ (n : Nat) (l : List (Option Nat × Int)), l.length ≤ n → (chunked l).flatten = l := by
  intro n
  induction n with
  | zero =>
    intro l h
    have hl : l = [] := List.eq_nil_of_length_eq_zero (Nat.le_zero.mp h)
    subst hl
    rw [chunked]
    simp
  | succ n ih =>
    intro l h
    by_cases hl : l = []
    · subst hl
      rw [chunked]
      simp
    · rw [chunked]
      rw [dif_neg hl]
      rw [List.flatten_cons]
      have hlen : (l.drop 5000).length ≤ n := by
        rw [List.length_drop]
        have : l.length ≠ 0 := fun hz => hl (List.eq_nil_of_length_eq_zero hz)
        omega
      rw [ih (l.drop 5000) hlen]
      exact List.take_append_drop 5000 l

theorem uploadReligionStats_eq (stats : List (Option Nat × Int)) :
    uploadReligionStats stats = stats := by
  unfold uploadReligionStats
  exact chunked_flatten_bounded stats.length stats (le_refl _)

/-! ## Remaining helper lemmas -/

theorem clean_state_name_eq (s : PyStr) :
    clean_state_name s =
      if containsStr (regionKeyStage s) "maharastra".data then "maharashtra".data
      else if containsStr (regionKeyStage s) "dadra".data
          && containsStr (regionKeyStage s) "daman".data then
        "dadra and nagar haveli and daman and diu".data
      else pyTitle (regionKeyStage s) := rfl

theorem contains_false_ne {l : List Nat} {a : Nat} (h : l.contains a = false) :
    ∀ x ∈ l, x ≠ a := by
  induction l with
  | nil => intro x hx; exact absurd hx (List.not_mem_nil x)
  | cons b t ih =>
    intro x hx
    rw [List.contains_cons, Bool.or_eq_false_iff] at h
    rcases List.mem_cons.mp hx with h1 | h1
    · subst h1
      intro he
      rw [he] at h
      simp at h
    · exact ih h.2 x h1

theorem takeWhile_all {α : Type} {p : α → Bool} {l : List α}
    (h : ∀ c ∈ l, p c = true) : l.takeWhile p = l := by
  induction l with
  | nil => rfl
  | cons c t ih =>
    rw [List.takeWhile_cons, if_pos (h c (List.mem_cons_self c t))]
    rw [ih (fun d hd => h d (List.mem_cons_of_mem c hd))]

theorem dropWhile_all {α : Type} {p : α → Bool} {l : List α}
    (h : ∀ c ∈ l, p c = true) : l.dropWhile p = [] := by
  induction l with
  | nil => rfl
  | cons c t ih =>
    rw [List.dropWhile_cons, if_pos (h c (List.mem_cons_self c t))]
    exact ih (fun d hd => h d (List.mem_cons_of_mem c hd))

theorem digit_not_exp {c : Char} (h : isDigitChar c = true) : (!isExpChar c) = true := by
  unfold isExpChar
  cases hx : (c == 'e') with
  | true =>
    rw [eq_of_beq hx] at h
    exact absurd h (by decide)
  | false =>
    cases hy : (c == 'E') with
    | true =>
      rw [eq_of_beq hy] at h
      exact absurd h (by decide)
    | false => rfl

theorem parseMantissa_all_digits {l : PyStr} (h0 : l ≠ [])
    (h : ∀ c ∈ l, isDigitChar c = true) : parseMantissa l = some (digitsVal l, 0) := by
  unfold parseMantissa
  rw [dropWhile_all h, takeWhile_all h]
  show (if l ≠ [] then some (digitsVal l, 0) else none) = some (digitsVal l, 0)
  rw [if_pos h0]

theorem parseUnsignedDec_all_digits {l : PyStr} (h0 : l ≠ [])
    (h : ∀ c ∈ l, isDigitChar c = true) : parseUnsignedDec l = some (digitsVal l) := by
  unfold parseUnsignedDec
  rw [takeWhile_all (fun c hc => digit_not_exp (h c hc)),
    dropWhile_all (fun c hc => digit_not_exp (h c hc)),
    parseMantissa_all_digits h0 h]
  show some (digitsVal l / 10 ^ 0) = some (digitsVal l)
  rw [pow_zero, Nat.div_one]

/-- Any text `astype(int)` accepts (a signed run of digits) is accepted by
`pd.to_numeric` with the same integer value: the decimal grammar extends
the integer one. -/
theorem parseIntText_cons (c : Char) (rest : PyStr) :
    parseIntText (c :: rest) =
      if c == '-' then
        if rest ≠ [] ∧ rest.all isDigitChar then some (-(digitsVal rest : Int)) else none
      else if c == '+' then
        if rest ≠ [] ∧ rest.all isDigitChar then some (digitsVal rest) else none
      else if (c :: rest).all isDigitChar then some (digitsVal (c :: rest)) else none := rfl

theorem parseDecimalTrunc_cons (c : Char) (rest : PyStr) :
    parseDecimalTrunc (c :: rest) =
      if c == '-' then (parseUnsignedDec rest).map (fun n : Nat => -(n : Int))
      else if c == '+' then (parseUnsignedDec rest).map (fun n : Nat => (n : Int))
      else (parseUnsignedDec (c :: rest)).map (fun n : Nat => (n : Int)) := rfl

theorem parseDecimalTrunc_of_parseIntText {s : PyStr} {v : Int}
    (h : parseIntText s = some v) : parseDecimalTrunc s = some v := by
  cases s with
  | nil => simp [parseIntText] at h
  | cons c rest =>
    rw [parseIntText_cons] at h
    rw [parseDecimalTrunc_cons]
    by_cases hc : (c == '-') = true
    · rw [if_pos hc] at h ⊢
      by_cases hcond : (rest ≠ [] ∧ rest.all isDigitChar = true)
      · rw [if_pos hcond] at h
        have hv := Option.some.inj h
        rw [parseUnsignedDec_all_digits hcond.1 (List.all_eq_true.mp hcond.2)]
        rw [Option.map_some', hv]
      · rw [if_neg hcond] at h
        exact absurd h (by simp)
    · rw [if_neg hc] at h ⊢
      by_cases hp : (c == '+') = true
      · rw [if_pos hp] at h ⊢
        by_cases hcond : (rest ≠ [] ∧ rest.all isDigitChar = true)
        · rw [if_pos hcond] at h
          have hv := Option.some.inj h
          rw [parseUnsignedDec_all_digits hcond.1 (List.all_eq_true.mp hcond.2)]
          rw [Option.map_some', hv]
        · rw [if_neg hcond] at h
          exact absurd h (by simp)
      · rw [if_neg hp] at h ⊢
        by_cases hall : ((c :: rest).all isDigitChar = true)
        · rw [if_pos hall] at h
          have hv := Option.some.inj h
          rw [parseUnsignedDec_all_digits (by simp) (List.all_eq_true.mp hall)]
          rw [Option.map_some', hv]
        · rw [if_neg hall] at h
          exact absurd h (by simp)

/-! ## Claim theorems -/

/-- C1 (counterexample): the population upload script's dimension path is a
wholesale replace, not an id-detected append. With destination rows
`[(1,A),(2,B)]` and a local CSV `[(1,A)]`, re-running
`upload_population_normalized.upload_regions` leaves the table as
`[(1,A)]`: the already-present row with id 2 is truncated away, refuting
the claim that every upload script's dimension path never truncates. -/
theorem C1_counterexample :
    upload_regions_pop (some [⟨1, "A".data⟩, ⟨2, "B".data⟩]) [⟨1, "A".data⟩] = [⟨1, "A".data⟩]
    ∧ (⟨2, "B".data⟩ : Row) ∈ [(⟨1, "A".data⟩ : Row), ⟨2, "B".data⟩]
    ∧ (⟨2, "B".data⟩ : Row)
        ∉ upload_regions_pop (some [⟨1, "A".data⟩, ⟨2, "B".data⟩]) [⟨1, "A".data⟩] := by
  decide

/-- C1 (amended): in the healthcare upload script (`update_regions` and
`upload_tru`), re-running a dimension load against an existing destination
table keeps every existing row in place (the old table is a prefix of the
new one, so no id is reassigned or truncated) and appends only CSV rows
whose id is not already present, detected by id. The other upload scripts
replace their dimension tables wholesale instead. -/
theorem C1_amended : ∀ (rows csv : List Row),
    ((update_regions (some rows) csv).take rows.length = rows)
    ∧ ((upload_tru_hc (some rows) csv).take rows.length = rows)
    ∧ (∀ r ∈ (update_regions (some rows) csv).drop rows.length,
        r ∈ csv ∧ ∀ e ∈ rows, e.id ≠ r.id)
    ∧ (∀ r ∈ (upload_tru_hc (some rows) csv).drop rows.length,
        r ∈ csv ∧ ∀ e ∈ rows, e.id ≠ r.id) := by
  intro rows csv
  have h1 : update_regions (some rows) csv
      = rows ++ csv.filter (fun r => !((rows.map Row.id).contains r.id)) := rfl
  have h2 : upload_tru_hc (some rows) csv
      = rows ++ csv.filter (fun r => !((rows.map Row.id).contains r.id)) := rfl
  have hdrop : ∀ r ∈ csv.filter (fun r => !((rows.map Row.id).contains r.id)),
      r ∈ csv ∧ ∀ e ∈ rows, e.id ≠ r.id := by
    intro r hr
    have hm := List.mem_filter.mp hr
    refine ⟨hm.1, ?_⟩
    intro e he
    have hc : (rows.map Row.id).contains r.id = false := by
      have := hm.2
      simpa using this
    exact contains_false_ne hc e.id (List.mem_map_of_mem Row.id he)
  refine ⟨?_, ?_, ?_, ?_⟩
  · rw [h1, List.take_left]
  · rw [h2, List.take_left]
  · rw [h1, List.drop_left]
    exact hdrop
  · rw [h2, List.drop_left]
    exact hdrop

/-- C1 (witness for the amended theorem): concrete instance with one
existing row and a CSV holding one old and one new row. -/
theorem C1_amended_witness :
    (⟨2, "B".data⟩ : Row) ∈ [(⟨1, "A".data⟩ : Row), ⟨2, "B".data⟩]
    ∧ (⟨1, "A".data⟩ : Row).id ≠ (⟨2, "B".data⟩ : Row).id :=
  ⟨by decide,
   ((C1_amended [⟨1, "A".data⟩] [⟨1, "A".data⟩, ⟨2, "B".data⟩]).2.2.1
      ⟨2, "B".data⟩ (by decide)).2 ⟨1, "A".data⟩ (by decide)⟩

/-- C2: the healthcare registry reconcile. The code's loop (unique cleaned
labels in first-occurrence order, each new canonical key assigned `next_id`
which is then incremented, a `(id, display)` delta row recorded) computes
exactly the per-label scan described in the spec (`specReconcile`); `load`
starts at `next_id = 1` for a missing registry and `max(ids) + 1`
otherwise; and persistence appends exactly the delta. -/
theorem C2 :
    (∀ (st : RegistryState) (labels : List PyStr),
        codeReconcile st labels = specReconcile st labels)
    ∧ load_regions none = ⟨1, []⟩
    ∧ (∀ rows : List Row, rows ≠ [] →
        (load_regions (some rows)).next_id = maxIds rows + 1)
    ∧ (∀ (rows delta : List Row), persistRegions rows delta = rows ++ delta) := by
  refine ⟨codeReconcile_eq_spec, rfl, fun rows _ => rfl, ?_⟩
  intro rows delta
  unfold persistRegions
  by_cases hd : delta.isEmpty = true
  · have he : delta = [] := by
      cases delta with
      | nil => rfl
      | cons a t => simp [List.isEmpty] at hd
    rw [if_pos hd, he, List.append_nil]
  · rw [if_neg hd]

/-- C2 (witness): a one-row registry gives `next_id = 5 + 1`. -/
theorem C2_witness : (load_regions (some [⟨5, "X".data⟩])).next_id = maxIds [⟨5, "X".data⟩] + 1 :=
  C2.2.2.1 [⟨5, "X".data⟩] (by decide)

/-- C3 (code bug evaluation): mapping the religion fact rows against a TRU
registry holding only Total/Rural/Urban turns the `"Semi-Urban"` row into
a row with a missing (`none`) tru id — nothing is reported and the row is
not dropped — and `upload_religion.upload_stats` uploads every row
(including the unmapped one) before any constraint is checked. -/
theorem C3_eval :
    map_tru religionTruMap [⟨"Semi-Urban".data, 5⟩, ⟨"Total".data, 7⟩]
      = [(none, 5), (some 1, 7)]
    ∧ uploadReligionStats [(none, 5), (some 1, 7)] = [(none, 5), (some 1, 7)]
    ∧ (∀ stats : List (Option Nat × Int), uploadReligionStats stats = stats) :=
  ⟨by decide, uploadReligionStats_eq _, uploadReligionStats_eq⟩

/-- C4 (code bug evaluation): the registry merge has no unmappable check.
A label that canonicalizes to the empty string is silently assigned the
fresh surrogate id 1, and a missing region name (pandas `NaN`, which
arrives as the string `"nan"`) is silently registered as the region
`"Nan"` with a fresh id, instead of being flagged. -/
theorem C4_eval :
    codeReconcile ⟨1, []⟩ [([] : PyStr)] = (⟨2, [(([] : PyStr), 1)]⟩, [⟨1, []⟩])
    ∧ codeReconcile ⟨1, []⟩ ["nan".data] = (⟨2, [("nan".data, 1)]⟩, [⟨1, "Nan".data⟩]) := by
  decide

/-- C5 (counterexample): region-name cleaning does not title-case every
input: `"Maharastra"` hits the fixed typo correction and is returned as
the all-lowercase `"maharashtra"`, which is not a title-cased string. -/
theorem C5_counterexample :
    clean_state_name "Maharastra".data = "maharashtra".data
    ∧ pyTitle (clean_state_name "Maharastra".data) ≠ clean_state_name "Maharastra".data := by
  decide

/-- C5 (amended): region-name canonicalization strips a leading
`"State - "` qualifier, strips a trailing parenthesized numeric code,
eliminates `&` in favour of `and`, and applies the fixed typo correction
and historical merge before the canonical key is computed; the display
form is title-cased for every input except those hitting the fixed
corrections, which are returned lowercase. The Andhra Pradesh scenario
resolves to the existing id 28 with no new rows. -/
theorem C5_amended :
    (∀ s : PyStr, s ≠ [] → pyStrip s = s → pyLower (s.take 8) ≠ "state - ".data →
        clean_state_name ("State - ".data ++ s) = clean_state_name s)
    ∧ (∀ s ds : PyStr, ds ≠ [] → (∀ c ∈ ds, isDigitChar c = true) →
        stripParenCode (s ++ ' ' :: '(' :: (ds ++ [')'])) = s)
    ∧ (∀ s : PyStr, '&' ∉ clean_state_name s)
    ∧ (∀ s : PyStr, pyTitle (clean_state_name s) = clean_state_name s
        ∨ clean_state_name s = "maharashtra".data
        ∨ clean_state_name s = "dadra and nagar haveli and daman and diu".data)
    ∧ clean_state_name "State - Andhra Pradesh (28)".data = "Andhra Pradesh".data
    ∧ clean_state_name "Jammu & Kashmir".data = "Jammu And Kashmir".data
    ∧ codeReconcile ⟨29, [("andhra pradesh".data, 28)]⟩ ["State - Andhra Pradesh (28)".data]
        = (⟨29, [("andhra pradesh".data, 28)]⟩, [])
    ∧ mapRegionIds [("andhra pradesh".data, 28)] ["State - Andhra Pradesh (28)".data]
        = [some 28] := by
  refine ⟨clean_state_name_marker, stripParenCode_append, ?_, ?_,
    by decide, by decide, by decide, by decide⟩
  · intro s
    rw [clean_state_name_eq]
    by_cases hm : containsStr (regionKeyStage s) "maharastra".data = true
    · rw [if_pos hm]
      decide
    · rw [if_neg hm]
      by_cases hd : (containsStr (regionKeyStage s) "dadra".data
          && containsStr (regionKeyStage s) "daman".data) = true
      · rw [if_pos hd]
        decide
      · rw [if_neg hd]
        intro hmem
        exact amp_not_mem_replaceAmp _ (amp_mem_pyTitleAux false hmem)
  · intro s
    rw [clean_state_name_eq]
    by_cases hm : containsStr (regionKeyStage s) "maharastra".data = true
    · rw [if_pos hm]
      right; left; rfl
    · rw [if_neg hm]
      by_cases hd : (containsStr (regionKeyStage s) "dadra".data
          && containsStr (regionKeyStage s) "daman".data) = true
      · rw [if_pos hd]
        right; right; rfl
      · rw [if_neg hd]
        left
        exact pyTitleAux_idem _ false

/-- C5 (witness for the amended theorem): the marker-stripping clause at
the concrete input `"Goa"`. -/
theorem C5_amended_witness :
    clean_state_name ("State - ".data ++ "Goa".data) = clean_state_name "Goa".data :=
  C5_amended.1 "Goa".data (by decide) (by decide) (by decide)

/-- C6: column-name canonicalization is total and safe. Falsy input
(missing, empty string, zero) yields the placeholder `"col"`; any other
input yields the lowercased, stripped string with whitespace runs
collapsed to `_` and all characters outside `[a-z0-9_]` removed, truncated
to 60 characters — so every output consists only of `[a-z0-9_]` characters
and has length at most 60. -/
theorem C6 :
    (∀ v : CVal,
      (isFalsy v = true → clean_column_name v = "col".data)
      ∧ (∀ c ∈ clean_column_name v, isIdentChar c = true)
      ∧ (clean_column_name v).length ≤ 60
      ∧ (isFalsy v = false →
          clean_column_name v
            = ((collapseWs (pyStrip (pyLower (pyStrOf v)))).filter isIdentChar).take 60))
    ∧ clean_column_name (CVal.vStr "  Distt. Code  ".data) = "distt_code".data
    ∧ clean_column_name CVal.vNone = "col".data
    ∧ clean_column_name (CVal.vStr []) = "col".data := by
  refine ⟨?_, by decide, by decide, by decide⟩
  intro v
  unfold clean_column_name
  by_cases hf : isFalsy v = true
  · rw [if_pos hf]
    refine ⟨fun _ => rfl, by decide, by decide, ?_⟩
    intro hc
    rw [hf] at hc
    exact absurd hc (by decide)
  · rw [if_neg hf]
    refine ⟨fun hc => absurd hc hf, ?_, ?_, fun _ => rfl⟩
    · intro c hc
      exact (List.mem_filter.mp (List.mem_of_mem_take hc)).2
    · rw [List.length_take]
      exact min_le_left _ _

/-- C6 (witness): the falsy clause at `None`. -/
theorem C6_witness : clean_column_name CVal.vNone = "col".data :=
  (C6.1 CVal.vNone).1 rfl

/-- C7: reconciling a registry that already contains the canonical key of
every incoming label produces no new rows and leaves the state (id map and
`next_id`) unchanged; hence re-reconciling the state produced by any
reconcile run, with the same labels, is a no-op, and persisting an empty
delta leaves the registry file unchanged. -/
theorem C7 :
    (∀ (st : RegistryState) (labels : List PyStr),
        (∀ l ∈ labels, (st.map.lookup (pyLower (clean_state_name l))).isSome = true) →
        codeReconcile st labels = (st, []))
    ∧ (∀ (st : RegistryState) (labels : List PyStr),
        codeReconcile (codeReconcile st labels).1 labels = ((codeReconcile st labels).1, []))
    ∧ (∀ rows : List Row, persistRegions rows [] = rows) := by
  have hAll : ∀ (st : RegistryState) (labels : List PyStr),
      (∀ l ∈ labels, (st.map.lookup (pyLower (clean_state_name l))).isSome = true) →
      codeReconcile st labels = (st, []) := by
    intro st labels h
    rw [codeReconcile_eq_spec]
    unfold specReconcile
    rw [← List.foldl_map]
    apply foldl_regStep_present
    intro d hd
    obtain ⟨l, hl, he⟩ := List.mem_map.mp hd
    subst he
    exact h l hl
  refine ⟨hAll, ?_, fun rows => rfl⟩
  intro st labels
  apply hAll
  intro l hl
  rw [codeReconcile_eq_spec]
  unfold specReconcile
  rw [← List.foldl_map]
  exact foldl_regStep_mem (List.mem_map_of_mem clean_state_name hl)

/-- C7 (witness): a registry already holding `rural` reconciled with
`["Rural"]` is unchanged with an empty delta. -/
theorem C7_witness :
    codeReconcile ⟨4, [("rural".data, 1)]⟩ ["Rural".data] = (⟨4, [("rural".data, 1)]⟩, []) :=
  C7.1 ⟨4, [("rural".data, 1)]⟩ ["Rural".data] (by decide)

/-- C8: reconciling an empty registry with
`["Rural", "Urban", "Total", "Rural"]` yields the id map
`{rural ↦ 1, urban ↦ 2, total ↦ 3}`, exactly three new rows, and the
display label `"Rural"` kept exactly once; the occupation/PCA TRU
extraction numbers the same labels 1, 2, 3 in first-occurrence order. -/
theorem C8 :
    codeReconcile ⟨1, []⟩ ["Rural".data, "Urban".data, "Total".data, "Rural".data]
      = (⟨4, [("rural".data, 1), ("urban".data, 2), ("total".data, 3)]⟩,
         [⟨1, "Rural".data⟩, ⟨2, "Urban".data⟩, ⟨3, "Total".data⟩])
    ∧ ((codeReconcile ⟨1, []⟩ ["Rural".data, "Urban".data, "Total".data, "Rural".data]).2.map
        Row.name).count "Rural".data = 1
    ∧ truExtract ["Rural".data, "Urban".data, "Total".data, "Rural".data]
      = [⟨1, "Rural".data⟩, ⟨2, "Urban".data⟩, ⟨3, "Total".data⟩]
    ∧ truExtractMap ["Rural".data, "Urban".data, "Total".data, "Rural".data]
      = [("Rural".data, 1), ("Urban".data, 2), ("Total".data, 3)] := by
  decide

/-- C9 (counterexample): the population pipeline's
`fillna(0).astype(int)` does not resolve unparsable text to 0 — it raises
(modelled as `none`), refuting the claim for that fact dataset. -/
theorem C9_counterexample :
    pop_coerce (PCell.text "abc".data) = none
    ∧ pop_coerce (PCell.text "abc".data) ≠ some 0 := by
  decide

/-- C9 (amended): numeric measure cells are coerced to whole-number
integers. In the occupation pipeline
(`to_numeric(errors='coerce').fillna(0).astype(int)`), missing and
unparsable cells both become 0 and parsable decimal text is truncated
toward zero. In the population pipeline (`fillna(0).astype(int)`),
missing cells become 0 and numeric cells pass through, but an unparsable
text cell raises instead of resolving to 0; wherever the population
coercion succeeds, the occupation coercion agrees with it. At `"4.2"` the
two pipelines diverge: occupation yields 4 while population raises. -/
theorem C9_amended :
    occ_coerce PCell.missing = 0
    ∧ (∀ n : Int, occ_coerce (PCell.intVal n) = n)
    ∧ (∀ s : PyStr, parseDecimalTrunc (pyStrip s) = none → occ_coerce (PCell.text s) = 0)
    ∧ pop_coerce PCell.missing = some 0
    ∧ (∀ n : Int, pop_coerce (PCell.intVal n) = some n)
    ∧ (∀ c : PCell, pop_coerce c = some (occ_coerce c) ∨ pop_coerce c = none)
    ∧ occ_coerce (PCell.text "  42 ".data) = 42
    ∧ occ_coerce (PCell.text "4.2".data) = 4
    ∧ occ_coerce (PCell.text "-4.2".data) = -4
    ∧ occ_coerce (PCell.text "1.5e2".data) = 150
    ∧ occ_coerce (PCell.text "42e-1".data) = 4
    ∧ occ_coerce (PCell.text "abc".data) = 0
    ∧ pop_coerce (PCell.text "4.2".data) = none := by
  refine ⟨rfl, fun n => rfl, ?_, rfl, fun n => rfl, ?_,
    by decide, by decide, by decide, by decide, by decide, by decide, by decide⟩
  · intro s h
    show (parseDecimalTrunc (pyStrip s)).getD 0 = 0
    rw [h]
    rfl
  · intro c
    cases c with
    | missing => left; rfl
    | intVal n => left; rfl
    | text s =>
      cases h : parseIntText (pyStrip s) with
      | none => right; exact h
      | some v =>
        left
        have hdec := parseDecimalTrunc_of_parseIntText h
        show parseIntText (pyStrip s) = some ((parseDecimalTrunc (pyStrip s)).getD 0)
        rw [h, hdec]
        rfl

/-- C9 (witness for the amended theorem): the occupation coercion turns
the unparsable cell `"abc"` into 0. -/
theorem C9_amended_witness : occ_coerce (PCell.text "no-number".data) = 0 :=
  C9_amended.2.2.1 "no-number".data (by decide)

/-- C10: the fixed typo and merge corrections bypass title-casing. Any
input whose cleaned key stage contains `maharastra` is returned as the
all-lowercase `maharashtra`; any other input containing both `dadra` and
`daman` is returned as the all-lowercase merged label; every input hitting
neither correction is returned title-cased (a fixed point of `pyTitle`).
Consequently a fresh registry built from `["Maharastra", "Goa"]` stores
the lowercase display `maharashtra` next to the title-cased `Goa`. -/
theorem C10 :
    (∀ s : PyStr, containsStr (regionKeyStage s) "maharastra".data = true →
        clean_state_name s = "maharashtra".data)
    ∧ (∀ s : PyStr, containsStr (regionKeyStage s) "maharastra".data = false →
        (containsStr (regionKeyStage s) "dadra".data
          && containsStr (regionKeyStage s) "daman".data) = true →
        clean_state_name s = "dadra and nagar haveli and daman and diu".data)
    ∧ ("maharashtra".data.all (fun c => !isUpperAlpha c) = true)
    ∧ ("dadra and nagar haveli and daman and diu".data.all (fun c => !isUpperAlpha c) = true)
    ∧ (∀ s : PyStr, containsStr (regionKeyStage s) "maharastra".data = false →
        (containsStr (regionKeyStage s) "dadra".data
          && containsStr (regionKeyStage s) "daman".data) = false →
        pyTitle (clean_state_name s) = clean_state_name s)
    ∧ codeReconcile ⟨1, []⟩ ["Maharastra".data, "Goa".data]
        = (⟨3, [("maharashtra".data, 1), ("goa".data, 2)]⟩,
           [⟨1, "maharashtra".data⟩, ⟨2, "Goa".data⟩]) := by
  refine ⟨?_, ?_, by decide, by decide, ?_, by decide⟩
  · intro s hm
    rw [clean_state_name_eq, if_pos hm]
  · intro s hm hd
    rw [clean_state_name_eq, if_neg (by simp [hm]), if_pos hd]
  · intro s hm hd
    rw [clean_state_name_eq, if_neg (by simp [hm]), if_neg (by simp [hd])]
    exact pyTitleAux_idem _ false

/-- C10 (witness): the typo-correction clause at `"Maharastra"`. -/
theorem C10_witness : clean_state_name "Maharastra".data = "maharashtra".data :=
  C10.1 "Maharastra".data (by decide)
